import Mathlib

/-
Verification of the system-status JSON server (src/status.py).

The source is a single-file Python HTTP server. We give a shallow embedding:
machine floats are idealised as rationals (every concrete value appearing in
the claims, and every division by 1024 performed by the code, is exact in
binary floating point, so the idealisation agrees with the source on them),
OS-supplied data (file contents, path predicates, df output) is passed in
explicitly through an environment record, and Python exceptions are modelled
with Option/Except.
-/

namespace ServerStatus

unseal Rat.add Rat.mul Rat.inv Rat.sub Rat.ofScientific

/-! ### Python rounding and number formatting -/

/-- Round-half-to-even on a rational, the rounding used by Python's round()
and by printf-style "%.1f" formatting (applied to the exact value). -/
def roundHalfEven (q : ℚ) : ℤ :=
  if q - ⌊q⌋ < 1/2 then ⌊q⌋
  else if 1/2 < q - ⌊q⌋ then ⌊q⌋ + 1
  else if 2 ∣ ⌊q⌋ then ⌊q⌋ else ⌊q⌋ + 1

/-- Python round(x, 1): round to one decimal place, half to even. -/
def pyRound1 (q : ℚ) : ℚ := (roundHalfEven (q * 10) : ℚ) / 10

/-- Decimal digits of a natural number, most significant first (accumulator
form; digit characters are built from codes 48..57; the first argument is
structural fuel, and the number itself always bounds its digit count). -/
def natReprAux : ℕ → ℕ → List Char → List Char
  | 0, _, acc => acc
  | _ + 1, 0, acc => acc
  | fuel + 1, n + 1, acc =>
    natReprAux fuel ((n + 1) / 10) (Char.ofNat (48 + (n + 1) % 10) :: acc)

/-- Decimal rendering of a natural number. -/
def natRepr (n : ℕ) : String :=
  if n = 0 then "0" else String.mk (natReprAux n n [])

/-- Python "%.1f" % q : one-decimal fixed-point rendering of the exact value. -/
def pyFmtF1 (q : ℚ) : String :=
  let n : ℤ := roundHalfEven (q * 10)
  let a : ℕ := n.natAbs
  (if q < 0 then "-" else "") ++ natRepr (a / 10) ++ "." ++ natRepr (a % 10)

/-- Pad a string on the left with spaces to the given width
(the width-3 part of the "%3.1f" format). -/
def padLeft (w : ℕ) (s : String) : String :=
  String.mk (List.replicate (w - s.length) ' ') ++ s

/-- Loop body of sizeof_fmt (src/status.py lines 86-90): for each unit in
the list, emit "%3.1f %s%s" if the magnitude is below 1024, otherwise
divide by 1024 and continue; after the list is exhausted emit
"%.1f%s%s" with the Yi unit. -/
def sizeof_fmt_go : ℚ → String → List String → String
  | num, suffix, [] => pyFmtF1 num ++ "Yi" ++ suffix
  | num, suffix, unit :: rest =>
    if |num| < 1024 then padLeft 3 (pyFmtF1 num) ++ " " ++ unit ++ suffix
    else sizeof_fmt_go (num / 1024) suffix rest

/-- sizeof_fmt (src/status.py lines 85-90). -/
def sizeof_fmt (num : ℚ) (suffix : String := "B") : String :=
  sizeof_fmt_go num suffix ["", "Ki", "Mi", "Gi", "Ti", "Pi", "Ei", "Zi"]

/-! ### Memory reader (get_memory, src/status.py lines 93-108) -/

/-- Numeric value of a list of decimal digit characters. -/
def digitsVal (ds : List Char) : ℕ :=
  ds.foldl (fun a c => 10 * a + (c.toNat - 48)) 0

/-- First decimal number on the current line: scanning left to right up to
the next newline, the maximal digit run starting at the first digit found.
This is what the lazy regex fragment ".*?(\d+)" captures (with "." not
matching a newline). -/
def scanLineNum : List Char → Option ℕ
  | [] => none
  | c :: rest =>
    if c == '\n' then none
    else if c.isDigit then some (digitsVal (c :: rest.takeWhile Char.isDigit))
    else scanLineNum rest

/-- Whether some digit occurs before the next newline. -/
def hasDigitBeforeNewline : List Char → Bool
  | [] => false
  | c :: rest => if c == '\n' then false else c.isDigit || hasDigitBeforeNewline rest

/-- First (leftmost) match of the regex "<label>.*?(\d+)" in the text, as the
captured number: the first occurrence of the label that is followed by a
digit before the next newline, capturing the first digit run after it.
m[0] of re.findall in get_memory. -/
def firstNumAfterLabel (label : List Char) : List Char → Option ℕ
  | [] => none
  | c :: rest =>
    if label.isPrefixOf (c :: rest) then
      match scanLineNum ((c :: rest).drop label.length) with
      | some v => some v
      | none => firstNumAfterLabel label rest
    else firstNumAfterLabel label rest

/-- The labeled field is present in the text: the label occurs somewhere,
followed by a digit before the next newline (so the regex has a match). -/
def containsLabelNum (label text : List Char) : Prop :=
  ∃ pre rest, text = pre ++ label ++ rest ∧ hasDigitBeforeNewline rest = true

def memTotalLabel : List Char := "MemTotal:".data

def memAvailLabel : List Char := "MemAvailable:".data

/-- Result record of get_memory. -/
structure MemoryInfo where
  total : String
  avail : String
  percent_used : ℚ
deriving DecidableEq

/-- Exceptions get_memory can raise (uncaught in the source). -/
inductive MemError where
  | indexError
  | zeroDivisionError
deriving DecidableEq

/-- Pure computation of get_memory from the two parsed kilobyte values
(src/status.py lines 101-108): convert to bytes, compute the used
percentage, round to one decimal, format sizes. -/
def get_memory_vals (total_kb avail_kb : ℚ) : MemoryInfo :=
  let total := total_kb * 1024
  let avail := avail_kb * 1024
  let used := total - avail
  let percent_used := 100 * used / total
  ⟨sizeof_fmt total "B", sizeof_fmt avail "B", pyRound1 percent_used⟩

/-- get_memory's Linux path on the text read from /proc/meminfo: extract the
first numbers after "MemTotal:" and "MemAvailable:" (IndexError on m[0] if a
regex has no match), then compute; division by a zero total raises
ZeroDivisionError. -/
def get_memory_text (text : List Char) : Except MemError MemoryInfo :=
  match firstNumAfterLabel memTotalLabel text with
  | none => Except.error MemError.indexError
  | some t =>
    match firstNumAfterLabel memAvailLabel text with
    | none => Except.error MemError.indexError
    | some a =>
      if (t : ℚ) * 1024 = 0 then Except.error MemError.zeroDivisionError
      else Except.ok (get_memory_vals (t : ℚ) (a : ℚ))

/-- get_memory (src/status.py lines 93-108): fixed fallback off Linux,
otherwise parse the meminfo text. -/
def get_memory (isLinux : Bool) (text : List Char) : Except MemError MemoryInfo :=
  if !isLinux then Except.ok ⟨"0 Bytes", "0 Bytes", 100⟩
  else get_memory_text text

/-! ### Uptime reader (get_uptime, src/status.py lines 76-82) -/

/-- Python str.split() with no arguments: whitespace-delimited fields. -/
def pySplit (s : List Char) : List (List Char) :=
  (s.foldr
    (fun c acc =>
      if c.isWhitespace then [] :: acc
      else
        match acc with
        | [] => [[c]]
        | f :: fs => (c :: f) :: fs)
    []).filter (fun f => !f.isEmpty)

/-- f.readline(): the first line of the contents, including its newline. -/
def readline (s : List Char) : List Char :=
  match s.dropWhile (fun c => !(c == '\n')) with
  | [] => s.takeWhile (fun c => !(c == '\n'))
  | _ :: _ => s.takeWhile (fun c => !(c == '\n')) ++ ['\n']

/-- Modelled subset of Python float(): an unsigned decimal numeral
"digits[.digits]" (the format of the fields of /proc/uptime); anything else
is rejected. -/
def parseFloat (s : List Char) : Option ℚ :=
  let intPart := s.takeWhile Char.isDigit
  let rest := s.dropWhile Char.isDigit
  if intPart.isEmpty then none
  else
    match rest with
    | [] => some (digitsVal intPart : ℚ)
    | c :: frac =>
      if c == '.' && frac.all Char.isDigit then
        some ((digitsVal intPart : ℚ) + (digitsVal frac : ℚ) / (10 : ℚ) ^ frac.length)
      else none

/-- Result record of get_uptime. -/
structure UptimeInfo where
  uptime : ℚ
  upsince : ℚ
deriving DecidableEq

/-- get_uptime (src/status.py lines 76-82): zero/now fallback off Linux;
on Linux, parse the first whitespace-delimited field of the first line of
/proc/uptime as a float (IndexError/ValueError modelled as none) and set
upsince = now - uptime. -/
def get_uptime (isLinux : Bool) (now : ℚ) (file : List Char) : Option UptimeInfo :=
  if !isLinux then some ⟨0, now⟩
  else
    match (pySplit (readline file)).head? with
    | none => none
    | some w => (parseFloat w).map (fun v => ⟨v, now - v⟩)

/-! ### JSON values, environment, storage reader -/

/-- JSON values as assembled by the handler (objects keep insertion order,
like Python dicts). -/
inductive JsonVal where
  | str : String → JsonVal
  | num : ℚ → JsonVal
  | obj : List (String × JsonVal) → JsonVal

instance : Inhabited JsonVal := ⟨JsonVal.obj []⟩

/-- The OS-supplied data the readers consume, passed in explicitly:
platformInfo models the result of get_platform (OS identification calls),
loadInfo the result of get_load, df the parsed per-mount record returned by
get_df, and the remaining fields the platform test, the clock and the two
pseudo-files. -/
structure OsEnv where
  platformInfo : JsonVal
  isLinux : Bool
  now : ℚ
  uptimeFile : List Char
  meminfoText : List Char
  loadInfo : JsonVal
  path_exists : String → Bool
  path_isdir : String → Bool
  df : String → JsonVal

/-- Python dict assignment d[k] = v on an insertion-ordered association
list: update in place if the key exists, else append. -/
def dictInsert {α : Type} (d : List (String × α)) (k : String) (v : α) :
    List (String × α) :=
  if d.any (fun p => p.1 == k) then
    d.map (fun p => if p.1 == k then (k, v) else p)
  else d ++ [(k, v)]

/-- Python mnt.strip(c): remove leading and trailing occurrences of c. -/
def pyStrip (c : Char) (s : List Char) : List Char :=
  ((s.dropWhile (fun x => x == c)).reverse.dropWhile (fun x => x == c)).reverse

/-- Output key for a mount (src/status.py lines 138-141): "root" for "/",
otherwise the path with leading/trailing slashes stripped and the remaining
slashes replaced by hyphens. -/
def mountName (mnt : String) : String :=
  if mnt = "/" then "root"
  else String.mk ((pyStrip '/' mnt.data).map (fun ch => if ch == '/' then '-' else ch))

/-- Loop of get_storage (src/status.py lines 133-143): for each mount that
exists and is a directory, insert the df record under the derived name;
other mounts are skipped silently. -/
def get_storage_go (env : OsEnv) : List String → List (String × JsonVal) →
    List (String × JsonVal)
  | [], acc => acc
  | mnt :: rest, acc =>
    if env.path_exists mnt && env.path_isdir mnt then
      get_storage_go env rest (dictInsert acc (mountName mnt) (env.df mnt))
    else get_storage_go env rest acc

/-- get_storage (src/status.py lines 133-143). -/
def get_storage (env : OsEnv) (mounts : List String) : List (String × JsonVal) :=
  get_storage_go env mounts []

/-! ### Request handler (SystemInfoRequestHandler.do_GET, lines 30-61) -/

/-- The five metric readers, used to record which readers a request invoked. -/
inductive Reader where
  | platform
  | uptime
  | memory
  | load
  | storage
deriving DecidableEq

instance : Inhabited Reader := ⟨Reader.platform⟩

/-- Server configuration (command-line arguments, src/status.py lines 147-157). -/
structure Config where
  key : String
  platform : Bool
  uptime : Bool
  memory : Bool
  load : Bool
  storage : List String

/-- A response body: plain text or a JSON object kept in structured form
(the source serialises the object with json.dumps as the last step). -/
inductive RespBody where
  | text : String → RespBody
  | json : List (String × JsonVal) → RespBody

/-- Status line and headers sent by the handler, with the body. -/
structure HttpResponse where
  status : ℕ
  contentType : String
  body : RespBody

/-- The key query parameter extracted from the parse_qs dict
(src/status.py lines 34-37): the first value if present and non-empty. -/
def provided_key (params : List (String × List String)) : Option String :=
  match params.find? (fun p => p.1 == "key") with
  | some (_, v :: _) => some v
  | _ => none

/-- JSON shape of a get_uptime result. -/
def uptimeJson (u : UptimeInfo) : JsonVal :=
  JsonVal.obj [("uptime", JsonVal.num u.uptime), ("upsince", JsonVal.num u.upsince)]

/-- JSON shape of a get_memory result. -/
def memoryJson (m : MemoryInfo) : JsonVal :=
  JsonVal.obj [("total", JsonVal.str m.total), ("avail", JsonVal.str m.avail),
    ("percent_used", JsonVal.num m.percent_used)]

/-- One metric line of do_GET: enable flag, JSON key, reader tag, and the
reader's result (none when the reader raises). -/
abbrev MetricEntry := Bool × String × Reader × Option JsonVal

/-- The JSON object under construction and the readers invoked so far. -/
abbrev HandlerState := List (String × JsonVal) × List Reader

/-- One "if config[flag]: result[key] = reader()" block of do_GET: when the
flag is set, invoke the reader, propagating its exception; otherwise leave
the state unchanged. -/
def addMetric (flag : Bool) (k : String) (r : Reader) (compute : Option JsonVal)
    (st : HandlerState) : Option HandlerState :=
  if flag then
    match compute with
    | some v => some (dictInsert st.1 k v, st.2 ++ [r])
    | none => none
  else some st

/-- Run the metric blocks in order. -/
def runMetrics : List MetricEntry → HandlerState → Option HandlerState
  | [], st => some st
  | (flag, k, r, c) :: rest, st => (addMetric flag k r c st).bind (runMetrics rest)

/-- The five metric blocks of do_GET in source order (src/status.py lines
49-59); the storage block is guarded by the truthiness of the configured
mount list. -/
def metricList (config : Config) (env : OsEnv) : List MetricEntry :=
  [(config.platform, "platform", Reader.platform, some env.platformInfo),
   (config.uptime, "uptime", Reader.uptime,
     (get_uptime env.isLinux env.now env.uptimeFile).map uptimeJson),
   (config.memory, "memory", Reader.memory,
     (get_memory env.isLinux env.meminfoText).toOption.map memoryJson),
   (config.load, "load", Reader.load, some env.loadInfo),
   (!config.storage.isEmpty, "storage", Reader.storage,
     some (JsonVal.obj (get_storage env config.storage)))]

/-- SystemInfoRequestHandler.do_GET (src/status.py lines 30-61): if a key is
configured and the provided key is missing or wrong, answer 401 text/plain
"Unauthorized." without invoking any reader; otherwise answer 200
application/json with the assembled object. The overall none models an
uncaught reader exception aborting the request. The result also carries the
list of readers invoked. -/
def do_GET (config : Config) (env : OsEnv) (params : List (String × List String)) :
    Option (HttpResponse × List Reader) :=
  if config.key ≠ "none" ∧ provided_key params ≠ some config.key then
    some (⟨401, "text/plain", RespBody.text "Unauthorized."⟩, [])
  else
    (runMetrics (metricList config env) ([], [])).map (fun st =>
      (⟨200, "application/json", RespBody.json st.1⟩, st.2))

/-- The top-level keys the configuration enables, in the source's fixed
order; storage counts as enabled exactly when the mount list is non-empty. -/
def enabledKeys (config : Config) : List String :=
  (if config.platform then ["platform"] else []) ++
  (if config.uptime then ["uptime"] else []) ++
  (if config.memory then ["memory"] else []) ++
  (if config.load then ["load"] else []) ++
  (if !config.storage.isEmpty then ["storage"] else [])

/-- The readers the configuration enables, in the source's fixed order. -/
def enabledReaders (config : Config) : List Reader :=
  (if config.platform then [Reader.platform] else []) ++
  (if config.uptime then [Reader.uptime] else []) ++
  (if config.memory then [Reader.memory] else []) ++
  (if config.load then [Reader.load] else []) ++
  (if !config.storage.isEmpty then [Reader.storage] else [])

/-- The enable flag governing each reader. -/
def readerFlag (config : Config) : Reader → Bool
  | Reader.platform => config.platform
  | Reader.uptime => config.uptime
  | Reader.memory => config.memory
  | Reader.load => config.load
  | Reader.storage => !config.storage.isEmpty

/-! ### String and digit lemmas -/

theorem data_append (s t : String) : (s ++ t).data = s.data ++ t.data := by
  cases s; cases t; rfl

theorem digitChar_ne_space (d : ℕ) (h : d < 10) : Char.ofNat (48 + d) ≠ ' ' := by
  interval_cases d <;> decide

theorem natReprAux_no_space (fuel : ℕ) :
    ∀ n acc, (∀ c ∈ acc, c ≠ ' ') → ∀ c ∈ natReprAux fuel n acc, c ≠ ' ' := by
  induction fuel with
  | zero =>
    intro n acc hacc c hc
    rw [natReprAux] at hc
    exact hacc c hc
  | succ fuel ih =>
    intro n acc hacc c hc
    cases n with
    | zero => rw [natReprAux] at hc; exact hacc c hc
    | succ m =>
      rw [natReprAux] at hc
      refine ih ((m + 1) / 10) _ ?_ c hc
      intro c' hc'
      rcases List.mem_cons.mp hc' with h | h
      · subst h; exact digitChar_ne_space _ (Nat.mod_lt _ (by decide))
      · exact hacc c' h

theorem natRepr_no_space (n : ℕ) : ∀ c ∈ (natRepr n).data, c ≠ ' ' := by
  intro c hc
  unfold natRepr at hc
  split at hc
  · have h0 : ("0" : String).data = ['0'] := rfl
    rw [h0] at hc
    have : c = '0' := by simpa using hc
    subst this; decide
  · exact natReprAux_no_space n n [] (fun _ h => nomatch h) c hc

theorem pyFmtF1_no_space (q : ℚ) : ' ' ∉ (pyFmtF1 q).data := by
  unfold pyFmtF1
  intro hmem
  simp only [data_append, List.mem_append] at hmem
  rcases hmem with ((hs | h1) | h2) | h3
  · split at hs <;> simp_all
  · exact natRepr_no_space _ _ h1 rfl
  · simp_all
  · exact natRepr_no_space _ _ h3 rfl

/-! ### Formatter lemmas -/

theorem go_drop (units : List String) :
    ∀ (num : ℚ) (s : String), (1024 : ℚ) ^ units.length ≤ |num| →
      sizeof_fmt_go num s units = pyFmtF1 (num / 1024 ^ units.length) ++ "Yi" ++ s := by
  induction units with
  | nil => intro num s _; simp [sizeof_fmt_go]
  | cons u rest ih =>
    intro num s h
    have hlen : (1024 : ℚ) ≤ 1024 ^ (u :: rest).length := by
      calc (1024 : ℚ) = 1024 ^ 1 := (pow_one _).symm
      _ ≤ 1024 ^ (u :: rest).length := by
        apply pow_le_pow_right₀ (by norm_num)
        simp
    have hrec : (1024 : ℚ) ^ rest.length ≤ |num / 1024| := by
      rw [abs_div, abs_of_pos (by norm_num : (0 : ℚ) < 1024)]
      rw [le_div_iff₀ (by norm_num : (0 : ℚ) < 1024)]
      calc (1024 : ℚ) ^ rest.length * 1024 = 1024 ^ (rest.length + 1) := (pow_succ _ _).symm
      _ ≤ |num| := by simpa using h
    simp only [sizeof_fmt_go]
    rw [if_neg (by push_neg; linarith)]
    rw [ih (num / 1024) s hrec]
    congr 2
    rw [div_div, ← pow_succ']
    simp

theorem go_small (units : List String) :
    ∀ (num : ℚ) (s : String), units ≠ [] → |num| < 1024 ^ units.length →
      ∃ x u, sizeof_fmt_go num s units = padLeft 3 (pyFmtF1 x) ++ " " ++ u ++ s := by
  induction units with
  | nil => intro _ _ h _; exact absurd rfl h
  | cons u rest ih =>
    intro num s _ hlt
    by_cases hsm : |num| < 1024
    · exact ⟨num, u, by simp [sizeof_fmt_go, hsm]⟩
    · push_neg at hsm
      cases rest with
      | nil =>
        exfalso
        simp only [List.length_cons, List.length_nil, zero_add, pow_one] at hlt
        linarith
      | cons u2 rest2 =>
        have hrec : |num / 1024| < 1024 ^ (u2 :: rest2).length := by
          rw [abs_div, abs_of_pos (by norm_num : (0 : ℚ) < 1024)]
          rw [div_lt_iff₀ (by norm_num : (0 : ℚ) < 1024)]
          calc |num| < 1024 ^ (u :: u2 :: rest2).length := hlt
          _ = 1024 ^ (u2 :: rest2).length * 1024 := by rw [← pow_succ]; rfl
        obtain ⟨x, un, hx⟩ := ih (num / 1024) s (by simp) hrec
        refine ⟨x, un, ?_⟩
        simp only [sizeof_fmt_go]
        rw [if_neg (by push_neg; exact hsm)]
        exact hx

theorem strAppend_assoc (a b c : String) : a ++ b ++ c = a ++ (b ++ c) := by
  cases a with
  | mk da =>
    cases b with
    | mk db =>
      cases c with
      | mk dc =>
        show String.mk ((da ++ db) ++ dc) = String.mk (da ++ (db ++ dc))
        rw [List.append_assoc]

theorem sizeof_fmt_yi (q : ℚ) (h : (1024 : ℚ) ^ 8 ≤ |q|) :
    sizeof_fmt q "B" = pyFmtF1 (q / 1024 ^ 8) ++ "Yi" ++ "B" := by
  have := go_drop ["", "Ki", "Mi", "Gi", "Ti", "Pi", "Ei", "Zi"] q "B" (by simpa using h)
  simpa [sizeof_fmt] using this

/-! ### Rounding lemmas -/

theorem roundHalfEven_nonneg (q : ℚ) (h : 0 ≤ q) : 0 ≤ roundHalfEven q := by
  have hfl : (0 : ℤ) ≤ ⌊q⌋ := Int.floor_nonneg.mpr h
  unfold roundHalfEven
  split_ifs <;> omega

theorem roundHalfEven_le (q : ℚ) (B : ℤ) (h : q ≤ B) : roundHalfEven q ≤ B := by
  have hfl : ⌊q⌋ ≤ B := by
    calc ⌊q⌋ ≤ ⌊(B : ℚ)⌋ := Int.floor_le_floor h
    _ = B := Int.floor_intCast B
  have hflq : (⌊q⌋ : ℚ) ≤ q := Int.floor_le q
  unfold roundHalfEven
  split_ifs with h1 h2 h3
  · exact hfl
  · have : (⌊q⌋ : ℚ) < (B : ℚ) := by linarith
    have : ⌊q⌋ < B := by exact_mod_cast this
    omega
  · exact hfl
  · push_neg at h1 h2
    have : (⌊q⌋ : ℚ) < (B : ℚ) := by linarith
    have : ⌊q⌋ < B := by exact_mod_cast this
    omega

theorem pyRound1_nonneg (q : ℚ) (h : 0 ≤ q) : 0 ≤ pyRound1 q := by
  unfold pyRound1
  have : (0 : ℤ) ≤ roundHalfEven (q * 10) := roundHalfEven_nonneg _ (by linarith)
  have : (0 : ℚ) ≤ (roundHalfEven (q * 10) : ℚ) := by exact_mod_cast this
  linarith

theorem pyRound1_le_100 (q : ℚ) (h : q ≤ 100) : pyRound1 q ≤ 100 := by
  unfold pyRound1
  have : roundHalfEven (q * 10) ≤ (1000 : ℤ) := roundHalfEven_le _ 1000 (by push_cast; linarith)
  have : (roundHalfEven (q * 10) : ℚ) ≤ 1000 := by exact_mod_cast this
  linarith

/-- C4: sizeof_fmt returns "0.0 B" for 0, "1.0 KiB" for 1024, "1.5 KiB" for
1536; every input at least 1024^8 is rendered with the Yi unit; and the loop
steps to the next binary unit exactly when the remaining magnitude is at
least 1024 (otherwise it emits the current unit). -/
theorem sizeof_fmt_spec :
    sizeof_fmt 0 "B" = "0.0 B" ∧
    sizeof_fmt 1024 "B" = "1.0 KiB" ∧
    sizeof_fmt 1536 "B" = "1.5 KiB" ∧
    (∀ q : ℚ, (1024 : ℚ) ^ 8 ≤ q → ∃ p, sizeof_fmt q "B" = p ++ "YiB") ∧
    (∀ (num : ℚ) (s u : String) (rest : List String), 1024 ≤ |num| →
      sizeof_fmt_go num s (u :: rest) = sizeof_fmt_go (num / 1024) s rest) ∧
    (∀ (num : ℚ) (s u : String) (rest : List String), |num| < 1024 →
      sizeof_fmt_go num s (u :: rest) = padLeft 3 (pyFmtF1 num) ++ " " ++ u ++ s) := by
  refine ⟨by decide, by decide, by decide, ?_, ?_, ?_⟩
  · intro q h
    have hq0 : 0 ≤ q := le_trans (by positivity) h
    have habs : (1024 : ℚ) ^ 8 ≤ |q| := by rwa [abs_of_nonneg hq0]
    refine ⟨pyFmtF1 (q / 1024 ^ 8), ?_⟩
    rw [sizeof_fmt_yi q habs, strAppend_assoc]
    rfl
  · intro num s u rest h
    simp only [sizeof_fmt_go]
    rw [if_neg (not_lt.mpr h)]
  · intro num s u rest h
    simp only [sizeof_fmt_go]
    rw [if_pos h]

/-- C4 witness: the conjuncts with hypotheses, applied at 1024^8, 2048 and
512. -/
theorem sizeof_fmt_spec_witness :
    ((1024 : ℚ) ^ 8 ≤ (1024 : ℚ) ^ 8 ∧ ∃ p, sizeof_fmt ((1024 : ℚ) ^ 8) "B" = p ++ "YiB") ∧
    ((1024 : ℚ) ≤ |(2048 : ℚ)| ∧
      sizeof_fmt_go 2048 "B" ["Ki"] = sizeof_fmt_go (2048 / 1024) "B" []) ∧
    (|(512 : ℚ)| < 1024 ∧
      sizeof_fmt_go 512 "B" ["Ki"] = padLeft 3 (pyFmtF1 512) ++ " " ++ "Ki" ++ "B") :=
  ⟨⟨le_refl _, sizeof_fmt_spec.2.2.2.1 ((1024 : ℚ) ^ 8) (le_refl _)⟩,
   ⟨by decide, sizeof_fmt_spec.2.2.2.2.1 2048 "B" "Ki" [] (by decide)⟩,
   ⟨by decide, sizeof_fmt_spec.2.2.2.2.2 512 "B" "Ki" [] (by decide)⟩⟩

/-- C9: inputs of magnitude at least 1024^8 are rendered with no space
between the number and the YiB unit (1024^8 itself as "1.0YiB"), while every
smaller-magnitude input is rendered with a space before its unit. -/
theorem sizeof_fmt_yi_spacing :
    sizeof_fmt ((1024 : ℚ) ^ 8) "B" = "1.0YiB" ∧
    (∀ q : ℚ, (1024 : ℚ) ^ 8 ≤ |q| → ' ' ∉ (sizeof_fmt q "B").data) ∧
    (∀ q : ℚ, |q| < (1024 : ℚ) ^ 8 → ' ' ∈ (sizeof_fmt q "B").data) := by
  refine ⟨by decide, ?_, ?_⟩
  · intro q h hmem
    rw [sizeof_fmt_yi q h] at hmem
    simp only [data_append, List.mem_append] at hmem
    rcases hmem with (h1 | h2) | h3
    · exact pyFmtF1_no_space _ h1
    · exact absurd h2 (by decide)
    · exact absurd h3 (by decide)
  · intro q h
    obtain ⟨x, u, hx⟩ :=
      go_small ["", "Ki", "Mi", "Gi", "Ti", "Pi", "Ei", "Zi"] q "B" (by simp) (by simpa using h)
    unfold sizeof_fmt
    rw [hx]
    simp [data_append]

/-- C9 witness: the two implications applied at 1024^8 and 512. -/
theorem sizeof_fmt_yi_spacing_witness :
    ((1024 : ℚ) ^ 8 ≤ |(1024 : ℚ) ^ 8| ∧ ' ' ∉ (sizeof_fmt ((1024 : ℚ) ^ 8) "B").data) ∧
    (|(512 : ℚ)| < (1024 : ℚ) ^ 8 ∧ ' ' ∈ (sizeof_fmt 512 "B").data) :=
  ⟨⟨by decide, sizeof_fmt_yi_spacing.2.1 ((1024 : ℚ) ^ 8) (by decide)⟩,
   ⟨by decide, sizeof_fmt_yi_spacing.2.2 512 (by decide)⟩⟩

/-- C3: for parsed total and available values with 0 ≤ avail ≤ total and
total > 0, the percent_used field of the memory reader equals
round(100 * (total_bytes - avail_bytes) / total_bytes, 1) and lies in
[0, 100] (total_kb and avail_kb are the parsed kilobyte numbers, so the byte
values are their multiples by 1024). -/
theorem memory_percent_formula (t a : ℚ) (h0 : 0 ≤ a) (h1 : a ≤ t) (h2 : 0 < t) :
    (get_memory_vals t a).percent_used = pyRound1 (100 * (t * 1024 - a * 1024) / (t * 1024)) ∧
    0 ≤ (get_memory_vals t a).percent_used ∧ (get_memory_vals t a).percent_used ≤ 100 := by
  have hpe : (get_memory_vals t a).percent_used =
      pyRound1 (100 * (t * 1024 - a * 1024) / (t * 1024)) := rfl
  have hT : (0 : ℚ) < t * 1024 := by
    have : (0 : ℚ) < 1024 := by norm_num
    exact mul_pos h2 this
  have hfrac0 : 0 ≤ 100 * (t * 1024 - a * 1024) / (t * 1024) := by
    apply div_nonneg _ (le_of_lt hT)
    nlinarith
  have hfrac1 : 100 * (t * 1024 - a * 1024) / (t * 1024) ≤ 100 := by
    rw [div_le_iff₀ hT]
    nlinarith
  refine ⟨hpe, ?_, ?_⟩
  · rw [hpe]; exact pyRound1_nonneg _ hfrac0
  · rw [hpe]; exact pyRound1_le_100 _ hfrac1

/-- C3 witness: the theorem applied at total 4 kB, available 1 kB
(percent used 75.0). -/
theorem memory_percent_formula_witness :
    ((0 : ℚ) ≤ 1 ∧ (1 : ℚ) ≤ 4 ∧ (0 : ℚ) < 4) ∧
    ((get_memory_vals 4 1).percent_used =
        pyRound1 (100 * ((4 : ℚ) * 1024 - 1 * 1024) / ((4 : ℚ) * 1024)) ∧
      0 ≤ (get_memory_vals 4 1).percent_used ∧ (get_memory_vals 4 1).percent_used ≤ 100) :=
  ⟨⟨by norm_num, by norm_num, by norm_num⟩,
   memory_percent_formula 4 1 (by norm_num) (by norm_num) (by norm_num)⟩

/-- C6: the uptime reader returns uptime 0 and upsince now on non-Linux
platforms; on Linux, when the first whitespace-delimited field of the uptime
pseudo-file parses as a float v, it returns uptime v and upsince now - v. -/
theorem uptime_reader_spec :
    (∀ (now : ℚ) (file : List Char), get_uptime false now file = some ⟨0, now⟩) ∧
    (∀ (now : ℚ) (file : List Char) (w : List Char) (v : ℚ),
      (pySplit (readline file)).head? = some w → parseFloat w = some v →
      get_uptime true now file = some ⟨v, now - v⟩) := by
  constructor
  · intro now file; rfl
  · intro now file w v hw hv
    simp [get_uptime, hw, hv]

/-- C6 witness: the Linux case applied to the file "12.5 30.2\n" at now =
100, and the fallback case at the same inputs. -/
theorem uptime_reader_spec_witness :
    ((pySplit (readline ("12.5 30.2\n".data))).head? = some ("12.5".data) ∧
      parseFloat ("12.5".data) = some (25 / 2) ∧
      get_uptime true 100 ("12.5 30.2\n".data) = some ⟨25 / 2, 100 - 25 / 2⟩) ∧
    get_uptime false 100 ("12.5 30.2\n".data) = some ⟨0, 100⟩ :=
  ⟨⟨by decide, by decide,
    uptime_reader_spec.2 100 ("12.5 30.2\n".data) ("12.5".data) (25 / 2) (by decide) (by decide)⟩,
   uptime_reader_spec.1 100 ("12.5 30.2\n".data)⟩

/-! ### Regex-match lemmas for the memory reader -/

theorem isPrefixOf_iff (l : List Char) :
    ∀ s, l.isPrefixOf s = true ↔ ∃ t, s = l ++ t := by
  induction l with
  | nil => intro s; simp [List.isPrefixOf]
  | cons a l ih =>
    intro s
    cases s with
    | nil => simp [List.isPrefixOf]
    | cons b t =>
      simp only [List.isPrefixOf, Bool.and_eq_true, beq_iff_eq, ih]
      constructor
      · rintro ⟨rfl, t', rfl⟩
        exact ⟨t', rfl⟩
      · rintro ⟨t', ht⟩
        injection ht with h1 h2
        exact ⟨h1.symm ▸ rfl, t', h2⟩

theorem scanLineNum_isSome (l : List Char) :
    (scanLineNum l).isSome = hasDigitBeforeNewline l := by
  induction l with
  | nil => rfl
  | cons c rest ih =>
    simp only [scanLineNum, hasDigitBeforeNewline]
    by_cases h1 : c == '\n'
    · simp [h1]
    · by_cases h2 : c.isDigit
      · simp [h1, h2]
      · simp [h1, h2, ih]

theorem containsLabelNum_cons (label : List Char) (c : Char) (t : List Char) :
    containsLabelNum label (c :: t) ↔
      (label.isPrefixOf (c :: t) = true ∧
        hasDigitBeforeNewline ((c :: t).drop label.length) = true) ∨
      containsLabelNum label t := by
  constructor
  · rintro ⟨pre, rest, heq, hd⟩
    cases pre with
    | nil =>
      left
      simp only [List.nil_append] at heq
      refine ⟨(isPrefixOf_iff label _).mpr ⟨rest, heq⟩, ?_⟩
      rw [heq, List.drop_left]
      exact hd
    | cons p pre' =>
      right
      injection heq with h1 h2
      exact ⟨pre', rest, h2, hd⟩
  · rintro (⟨hp, hd⟩ | ⟨pre, rest, heq, hd⟩)
    · obtain ⟨t', ht⟩ := (isPrefixOf_iff label _).mp hp
      refine ⟨[], t', by simpa using ht, ?_⟩
      rw [ht, List.drop_left] at hd
      exact hd
    · exact ⟨c :: pre, rest, by rw [heq]; rfl, hd⟩

theorem firstNumAfterLabel_isSome (label : List Char) :
    ∀ text, (firstNumAfterLabel label text).isSome = true ↔ containsLabelNum label text := by
  intro text
  induction text with
  | nil =>
    constructor
    · intro h; simp [firstNumAfterLabel] at h
    · rintro ⟨pre, rest, heq, hd⟩
      rcases List.append_eq_nil.mp heq.symm with ⟨-, h3⟩
      subst h3
      simp [hasDigitBeforeNewline] at hd
  | cons c t ih =>
    rw [containsLabelNum_cons]
    by_cases hp : label.isPrefixOf (c :: t) = true
    · cases hsc : scanLineNum ((c :: t).drop label.length) with
      | some v =>
        have hds : hasDigitBeforeNewline ((c :: t).drop label.length) = true := by
          rw [← scanLineNum_isSome, hsc]; rfl
        constructor
        · intro _; exact Or.inl ⟨hp, hds⟩
        · intro _
          simp only [firstNumAfterLabel]
          rw [if_pos hp, hsc]
          rfl
      | none =>
        have hds : hasDigitBeforeNewline ((c :: t).drop label.length) = false := by
          rw [← scanLineNum_isSome, hsc]; rfl
        have hfn : firstNumAfterLabel label (c :: t) = firstNumAfterLabel label t := by
          simp only [firstNumAfterLabel]
          rw [if_pos hp, hsc]
        rw [hfn, ih]
        constructor
        · exact Or.inr
        · rintro (⟨-, hd⟩ | h)
          · rw [hds] at hd; cases hd
          · exact h
    · have hfn : firstNumAfterLabel label (c :: t) = firstNumAfterLabel label t := by
        simp only [firstNumAfterLabel]
        rw [if_neg hp]
      rw [hfn, ih]
      constructor
      · exact Or.inr
      · rintro (⟨hp', -⟩ | h)
        · exact absurd hp' hp
        · exact h

theorem get_memory_text_indexError_iff (text : List Char) :
    get_memory_text text = Except.error MemError.indexError ↔
      ¬ containsLabelNum memTotalLabel text ∨ ¬ containsLabelNum memAvailLabel text := by
  cases h1 : firstNumAfterLabel memTotalLabel text with
  | none =>
    have hnt : ¬ containsLabelNum memTotalLabel text := by
      rw [← firstNumAfterLabel_isSome, h1]
      simp
    simp only [get_memory_text, h1]
    exact iff_of_true (by trivial) (Or.inl hnt)
  | some tv =>
    have ht : containsLabelNum memTotalLabel text := by
      rw [← firstNumAfterLabel_isSome, h1]; trivial
    cases h2 : firstNumAfterLabel memAvailLabel text with
    | none =>
      have hna : ¬ containsLabelNum memAvailLabel text := by
        rw [← firstNumAfterLabel_isSome, h2]
        simp
      simp only [get_memory_text, h1, h2]
      exact iff_of_true (by trivial) (Or.inr hna)
    | some av =>
      have ha : containsLabelNum memAvailLabel text := by
        rw [← firstNumAfterLabel_isSome, h2]; trivial
      simp only [get_memory_text, h1, h2]
      constructor
      · intro h
        split at h <;> simp_all
      · rintro (h | h)
        · exact absurd ht h
        · exact absurd ha h

/-! ### Handler lemmas -/

/-- The entry a metric line contributes to the JSON object when it runs. -/
def entryF (x : MetricEntry) : Option (String × JsonVal) :=
  if x.1 then (x.2.2.2).map (fun v => (x.2.1, v)) else none

/-- The keys of the enabled metric lines, in order. -/
def keysOf (L : List MetricEntry) : List String :=
  L.filterMap (fun x => if x.1 then some x.2.1 else none)

/-- The readers of the enabled metric lines, in order. -/
def readersOf (L : List MetricEntry) : List Reader :=
  L.filterMap (fun x => if x.1 then some x.2.2.1 else none)

theorem keysOf_nil : keysOf [] = [] := rfl

theorem keysOf_cons (x : MetricEntry) (L : List MetricEntry) :
    keysOf (x :: L) = (if x.1 then [x.2.1] else []) ++ keysOf L := by
  by_cases h : x.1 <;> simp [keysOf, h]

theorem readersOf_nil : readersOf [] = [] := rfl

theorem readersOf_cons (x : MetricEntry) (L : List MetricEntry) :
    readersOf (x :: L) = (if x.1 then [x.2.2.1] else []) ++ readersOf L := by
  by_cases h : x.1 <;> simp [readersOf, h]

theorem dictInsert_of_not_mem {α : Type} (d : List (String × α)) (k : String) (v : α)
    (h : k ∉ d.map Prod.fst) : dictInsert d k v = d ++ [(k, v)] := by
  unfold dictInsert
  rw [if_neg]
  intro hany
  obtain ⟨p, hp, hpk⟩ := List.any_eq_true.mp hany
  exact h (List.mem_map.mpr ⟨p, hp, by simpa using hpk⟩)

theorem mem_keys_dictInsert {α : Type} (d : List (String × α)) (k j : String) (v : α) :
    j ∈ (dictInsert d k v).map Prod.fst ↔ j ∈ d.map Prod.fst ∨ j = k := by
  unfold dictInsert
  by_cases h : d.any (fun p => p.1 == k)
  · rw [if_pos h]
    have hk : k ∈ d.map Prod.fst := by
      obtain ⟨p, hp, hpk⟩ := List.any_eq_true.mp h
      exact List.mem_map.mpr ⟨p, hp, by simpa using hpk⟩
    have hmap : (d.map (fun p => if p.1 == k then (k, v) else p)).map Prod.fst =
        d.map Prod.fst := by
      rw [List.map_map]
      apply List.map_congr_left
      intro p _
      by_cases hpk : p.1 == k
      · simp only [Function.comp_apply, if_pos hpk]
        exact (by simpa using hpk : p.1 = k).symm
      · simp only [Function.comp_apply, if_neg hpk]
    rw [hmap]
    constructor
    · exact Or.inl
    · rintro (h' | rfl)
      · exact h'
      · exact hk
  · rw [if_neg h]
    simp [List.mem_append]

theorem runMetrics_some_eq :
    ∀ (L : List MetricEntry) (st st' : HandlerState),
      runMetrics L st = some st' →
      (∀ k ∈ L.map (fun x => x.2.1), k ∉ st.1.map Prod.fst) →
      (L.map (fun x => x.2.1)).Nodup →
      st'.1 = st.1 ++ L.filterMap entryF ∧
      st'.2 = st.2 ++ readersOf L ∧
      ∀ x ∈ L, x.1 = true → (x.2.2.2).isSome = true := by
  intro L
  induction L with
  | nil =>
    intro st st' h _ _
    have hst : st = st' := by simpa [runMetrics] using h
    subst hst
    exact ⟨by simp [readersOf], by simp [readersOf], fun x hx => absurd hx (List.not_mem_nil x)⟩
  | cons x L ih =>
    intro st st' h hfresh hnodup
    obtain ⟨flag, k, r, c⟩ := x
    cases flag with
    | false =>
      simp only [runMetrics, addMetric, Bool.false_eq_true, if_false, Option.some_bind] at h
      obtain ⟨e1, e2, e3⟩ := ih st st' h
        (fun k' hk' => hfresh k' (List.mem_cons_of_mem _ hk'))
        (List.Nodup.of_cons hnodup)
      refine ⟨?_, ?_, ?_⟩
      · rw [e1]
        simp [entryF]
      · rw [e2, readersOf_cons]
        simp
      · intro y hy hyf
        rcases List.mem_cons.mp hy with rfl | hy'
        · exact absurd hyf (by simp)
        · exact e3 y hy' hyf
    | true =>
      cases hc : c with
      | none =>
        rw [hc] at h
        simp only [runMetrics, addMetric, if_true, Option.bind] at h
        cases h
      | some v =>
        rw [hc] at h
        simp only [runMetrics, addMetric, if_true, Option.some_bind] at h
        have hkfresh : k ∉ st.1.map Prod.fst := hfresh k (by simp)
        rw [dictInsert_of_not_mem _ _ _ hkfresh] at h
        have hknotin : k ∉ L.map (fun x => x.2.1) := by
          have := List.nodup_cons.mp hnodup
          exact this.1
        obtain ⟨e1, e2, e3⟩ := ih (st.1 ++ [(k, v)], st.2 ++ [r]) st' h
          (by
            intro k' hk'
            simp only [List.map_append, List.mem_append]
            rintro (h' | h')
            · exact hfresh k' (List.mem_cons_of_mem _ hk') h'
            · have : k' = k := by simpa using h'
              subst this
              exact hknotin hk')
          (List.Nodup.of_cons hnodup)

        refine ⟨?_, ?_, ?_⟩
        · rw [e1]
          have he : entryF (true, k, r, some v) = some (k, v) := by simp [entryF]
          simp [List.filterMap_cons, he, List.append_assoc]
        · rw [e2, readersOf_cons]
          simp [List.append_assoc]
        · intro y hy hyf
          rcases List.mem_cons.mp hy with rfl | hy'
          · simp [hc]
          · exact e3 y hy' hyf

theorem runMetrics_none :
    ∀ (L : List MetricEntry) (st : HandlerState) (x : MetricEntry),
      x ∈ L → x.1 = true → x.2.2.2 = none → runMetrics L st = none := by
  intro L
  induction L with
  | nil => intro st x hx; cases hx
  | cons y L ih =>
    intro st x hx hflag hc
    obtain ⟨yf, yk, yr, yc⟩ := y
    rcases List.mem_cons.mp hx with rfl | hx'
    · simp only at hflag hc
      simp [runMetrics, addMetric, hflag, hc]
    · simp only [runMetrics]
      cases ha : addMetric yf yk yr yc st with
      | none => rfl
      | some st2 =>
        simp only [Option.some_bind]
        exact ih st2 x hx' hflag hc

/-- Authorization: the request passes the key check (no key configured, or
the provided key matches). -/
def authorized (config : Config) (params : List (String × List String)) : Prop :=
  config.key = "none" ∨ provided_key params = some config.key

theorem do_GET_not401 (config : Config) (env : OsEnv)
    (params : List (String × List String)) (h : authorized config params) :
    do_GET config env params =
      (runMetrics (metricList config env) ([], [])).map (fun st =>
        (⟨200, "application/json", RespBody.json st.1⟩, st.2)) := by
  unfold do_GET
  rw [if_neg]
  rintro ⟨h1, h2⟩
  rcases h with h | h
  · exact h1 h
  · exact h2 h

theorem metricList_keys (config : Config) (env : OsEnv) :
    (metricList config env).map (fun x => x.2.1) =
      ["platform", "uptime", "memory", "load", "storage"] := rfl

theorem keysOf_metricList (config : Config) (env : OsEnv) :
    keysOf (metricList config env) = enabledKeys config := by
  simp [metricList, keysOf_cons, keysOf_nil, enabledKeys]

theorem readersOf_metricList (config : Config) (env : OsEnv) :
    readersOf (metricList config env) = enabledReaders config := by
  simp [metricList, readersOf_cons, readersOf_nil, enabledReaders]

theorem filterMap_entryF_keys :
    ∀ L : List MetricEntry, (∀ x ∈ L, x.1 = true → (x.2.2.2).isSome = true) →
      (L.filterMap entryF).map Prod.fst = keysOf L := by
  intro L
  induction L with
  | nil => intro _; rfl
  | cons x L ih =>
    intro h
    have htail := fun y hy => h y (List.mem_cons_of_mem _ hy)
    obtain ⟨flag, k, r, c⟩ := x
    cases flag with
    | false =>
      have he : entryF (false, k, r, c) = none := by simp [entryF]
      rw [List.filterMap_cons, he, keysOf_cons]
      simp [ih htail]
    | true =>
      obtain ⟨v, hv⟩ := Option.isSome_iff_exists.mp (h _ (List.mem_cons_self _ _) rfl)
      have hv' : c = some v := hv
      have he : entryF (true, k, r, c) = some (k, v) := by simp [entryF, hv']
      rw [List.filterMap_cons, he, keysOf_cons]
      simp [ih htail]

theorem filterMap_entryF_mem :
    ∀ (L : List MetricEntry) (x : MetricEntry) (v : JsonVal),
      x ∈ L → x.1 = true → x.2.2.2 = some v → (x.2.1, v) ∈ L.filterMap entryF := by
  intro L
  induction L with
  | nil => intro x v hx; cases hx
  | cons y L ih =>
    intro x v hx hflag hc
    rcases List.mem_cons.mp hx with rfl | hx'
    · have he : entryF x = some (x.2.1, v) := by
        simp [entryF, hflag, hc]
      simp [List.filterMap_cons, he]
    · have hmem := ih x v hx' hflag hc
      cases he : entryF y with
      | none => simpa [List.filterMap_cons, he] using hmem
      | some b =>
        rw [List.filterMap_cons, he]
        exact List.mem_cons_of_mem _ hmem

theorem mem_readersOf :
    ∀ (L : List MetricEntry) (r : Reader),
      r ∈ readersOf L ↔ ∃ x ∈ L, x.1 = true ∧ x.2.2.1 = r := by
  intro L
  induction L with
  | nil => intro r; simp [readersOf]
  | cons x L ih =>
    intro r
    rw [readersOf_cons]
    by_cases h : x.1 = true
    · rw [if_pos h, List.singleton_append]
      constructor
      · intro hr
        rcases List.mem_cons.mp hr with rfl | hr'
        · exact ⟨x, List.mem_cons_self _ _, h, rfl⟩
        · obtain ⟨y, hy, hyf, hyr⟩ := (ih r).mp hr'
          exact ⟨y, List.mem_cons_of_mem _ hy, hyf, hyr⟩
      · rintro ⟨y, hy, hyf, hyr⟩
        rcases List.mem_cons.mp hy with rfl | hy'
        · rw [← hyr]
          exact List.mem_cons_self _ _
        · exact List.mem_cons_of_mem _ ((ih r).mpr ⟨y, hy', hyf, hyr⟩)
    · rw [if_neg h, List.nil_append, ih r]
      constructor
      · rintro ⟨y, hy, hyf, hyr⟩
        exact ⟨y, List.mem_cons_of_mem _ hy, hyf, hyr⟩
      · rintro ⟨y, hy, hyf, hyr⟩
        rcases List.mem_cons.mp hy with rfl | hy'
        · exact absurd hyf h
        · exact ⟨y, hy', hyf, hyr⟩

theorem not_mem_enabledReaders (config : Config) (env : OsEnv) (r : Reader)
    (h : readerFlag config r = false) : r ∉ enabledReaders config := by
  rw [← readersOf_metricList config env, mem_readersOf]
  rintro ⟨x, hx, hflag, hr⟩
  simp only [metricList, List.mem_cons, List.not_mem_nil, or_false] at hx
  rcases hx with rfl | rfl | rfl | rfl | rfl <;>
    (cases r <;> simp_all [readerFlag])

/-- Characterisation of a successful authorized request: status 200,
JSON content type, body keys equal to the enabled keys in order, invoked
readers equal to the enabled readers in order, and the storage entry holding
the computed storage object when storage is enabled. -/
theorem do_GET_some_spec (config : Config) (env : OsEnv)
    (params : List (String × List String)) (resp : HttpResponse) (inv : List Reader)
    (hauth : authorized config params)
    (h : do_GET config env params = some (resp, inv)) :
    resp.status = 200 ∧ resp.contentType = "application/json" ∧
    ∃ body, resp.body = RespBody.json body ∧
      body.map Prod.fst = enabledKeys config ∧
      inv = enabledReaders config ∧
      (config.storage.isEmpty = false →
        ("storage", JsonVal.obj (get_storage env config.storage)) ∈ body) := by
  rw [do_GET_not401 config env params hauth] at h
  obtain ⟨st, hst, hmap⟩ := Option.map_eq_some'.mp h
  rw [Prod.mk.injEq] at hmap
  obtain ⟨hresp, hinv⟩ := hmap
  subst hresp
  subst hinv
  obtain ⟨e1, e2, e3⟩ := runMetrics_some_eq (metricList config env) ([], []) st hst
    (by intro k _; simp)
    (by rw [metricList_keys]; decide)
  refine ⟨rfl, rfl, st.1, rfl, ?_, ?_, ?_⟩
  · rw [e1]
    simp only [List.nil_append]
    rw [filterMap_entryF_keys _ e3, keysOf_metricList]
  · rw [e2]
    simp only [List.nil_append]
    rw [readersOf_metricList]
  · intro hs
    have hx : ((!config.storage.isEmpty : Bool), "storage", Reader.storage,
        some (JsonVal.obj (get_storage env config.storage))) ∈ metricList config env := by
      simp [metricList]
    have hmem := filterMap_entryF_mem (metricList config env) _
      (JsonVal.obj (get_storage env config.storage)) hx (by rw [hs]; rfl) rfl
    rw [e1]
    simpa using hmem

theorem mem_enabledKeys (config : Config) (k : String) :
    k ∈ enabledKeys config ↔
      (k = "platform" ∧ config.platform = true) ∨
      (k = "uptime" ∧ config.uptime = true) ∨
      (k = "memory" ∧ config.memory = true) ∨
      (k = "load" ∧ config.load = true) ∨
      (k = "storage" ∧ config.storage ≠ []) := by
  have hst : (!config.storage.isEmpty) = true ↔ config.storage ≠ [] := by
    cases config.storage <;> simp
  unfold enabledKeys
  by_cases hp : config.platform <;> by_cases hu : config.uptime <;>
    by_cases hm : config.memory <;> by_cases hl : config.load <;>
      by_cases hs : config.storage = [] <;>
        simp_all

/-! ### Storage reader lemmas -/

theorem mem_keys_get_storage_go (env : OsEnv) :
    ∀ (mounts : List String) (acc : List (String × JsonVal)) (j : String),
      j ∈ (get_storage_go env mounts acc).map Prod.fst ↔
        j ∈ acc.map Prod.fst ∨
          ∃ m ∈ mounts, (env.path_exists m && env.path_isdir m) = true ∧ mountName m = j := by
  intro mounts
  induction mounts with
  | nil =>
    intro acc j
    simp [get_storage_go]
  | cons mnt rest ih =>
    intro acc j
    simp only [get_storage_go]
    by_cases hq : (env.path_exists mnt && env.path_isdir mnt) = true
    · rw [if_pos hq, ih, mem_keys_dictInsert]
      constructor
      · rintro ((h | rfl) | ⟨m, hm, hq', hn⟩)
        · exact Or.inl h
        · exact Or.inr ⟨mnt, List.mem_cons_self _ _, hq, rfl⟩
        · exact Or.inr ⟨m, List.mem_cons_of_mem _ hm, hq', hn⟩
      · rintro (h | ⟨m, hm, hq', hn⟩)
        · exact Or.inl (Or.inl h)
        · rcases List.mem_cons.mp hm with rfl | hm'
          · exact Or.inl (Or.inr hn.symm)
          · exact Or.inr ⟨m, hm', hq', hn⟩
    · rw [if_neg hq, ih]
      constructor
      · rintro (h | ⟨m, hm, hq', hn⟩)
        · exact Or.inl h
        · exact Or.inr ⟨m, List.mem_cons_of_mem _ hm, hq', hn⟩
      · rintro (h | ⟨m, hm, hq', hn⟩)
        · exact Or.inl h
        · rcases List.mem_cons.mp hm with rfl | hm'
          · exact absurd hq' hq
          · exact Or.inr ⟨m, hm', hq', hn⟩

theorem get_storage_go_df_congr (env env2 : OsEnv)
    (hex : env2.path_exists = env.path_exists) (hdir : env2.path_isdir = env.path_isdir) :
    ∀ (mounts : List String) (acc : List (String × JsonVal)),
      (∀ m ∈ mounts, (env.path_exists m && env.path_isdir m) = true →
        env2.df m = env.df m) →
      get_storage_go env2 mounts acc = get_storage_go env mounts acc := by
  intro mounts
  induction mounts with
  | nil => intro acc _; rfl
  | cons mnt rest ih =>
    intro acc hdf
    simp only [get_storage_go, hex, hdir]
    by_cases hq : (env.path_exists mnt && env.path_isdir mnt) = true
    · rw [if_pos hq, if_pos hq, hdf mnt (List.mem_cons_self _ _) hq]
      exact ih _ (fun m hm => hdf m (List.mem_cons_of_mem _ hm))
    · rw [if_neg hq, if_neg hq]
      exact ih _ (fun m hm => hdf m (List.mem_cons_of_mem _ hm))

theorem get_storage_go_skips (env : OsEnv) :
    ∀ (mounts : List String) (acc : List (String × JsonVal)),
      (∀ m ∈ mounts, (env.path_exists m && env.path_isdir m) = false) →
      get_storage_go env mounts acc = acc := by
  intro mounts
  induction mounts with
  | nil => intro acc _; rfl
  | cons mnt rest ih =>
    intro acc hnone
    simp only [get_storage_go]
    rw [if_neg (by rw [hnone mnt (List.mem_cons_self _ _)]; simp)]
    exact ih _ (fun m hm => hnone m (List.mem_cons_of_mem _ hm))

/-- C5: the storage reader produces the derived key of every listed path
that exists and is a directory, produces no key that does not come from such
a path, names the root mount "root" and every other mount by the
strip-slashes-and-hyphenate rule, and never consults the df reader of a
skipped path (so no error is raised for one). -/
theorem storage_reader_keys (env : OsEnv) (mounts : List String) :
    (∀ mnt ∈ mounts, (env.path_exists mnt && env.path_isdir mnt) = true →
      mountName mnt ∈ (get_storage env mounts).map Prod.fst) ∧
    (∀ k ∈ (get_storage env mounts).map Prod.fst,
      ∃ mnt ∈ mounts, (env.path_exists mnt && env.path_isdir mnt) = true ∧
        mountName mnt = k) ∧
    mountName "/" = "root" ∧
    (∀ mnt : String, mnt ≠ "/" → mountName mnt =
      String.mk ((pyStrip '/' mnt.data).map (fun ch => if ch == '/' then '-' else ch))) ∧
    (∀ env2 : OsEnv, env2.path_exists = env.path_exists →
      env2.path_isdir = env.path_isdir →
      (∀ m ∈ mounts, (env.path_exists m && env.path_isdir m) = true →
        env2.df m = env.df m) →
      get_storage env2 mounts = get_storage env mounts) := by
  refine ⟨?_, ?_, rfl, ?_, ?_⟩
  · intro mnt hm hq
    rw [get_storage, mem_keys_get_storage_go]
    exact Or.inr ⟨mnt, hm, hq, rfl⟩
  · intro k hk
    rw [get_storage, mem_keys_get_storage_go] at hk
    rcases hk with h | h
    · simp at h
    · exact h
  · intro mnt hmnt
    rw [mountName, if_neg hmnt]
  · intro env2 hex hdir hdf
    exact get_storage_go_df_congr env env2 hex hdir mounts [] hdf

/-- Concrete environment for the storage witness: only "/" exists and is a
directory. -/
def stEnvW : OsEnv :=
  ⟨JsonVal.obj [], true, 0, [], [], JsonVal.obj [],
   fun s => s == "/", fun s => s == "/", fun _ => JsonVal.obj []⟩

/-- C5 witness: for the mount list ["/", "/data"] where only "/" exists, the
key "root" is present (via the theorem) and the key "data" is absent. -/
theorem storage_reader_keys_witness :
    ((stEnvW.path_exists "/" && stEnvW.path_isdir "/") = true ∧
      mountName "/" ∈ (get_storage stEnvW ["/", "/data"]).map Prod.fst) ∧
    "data" ∉ (get_storage stEnvW ["/", "/data"]).map Prod.fst ∧
    "root" ∈ (get_storage stEnvW ["/", "/data"]).map Prod.fst :=
  ⟨⟨by decide,
    (storage_reader_keys stEnvW ["/", "/data"]).1 "/" (by decide) (by decide)⟩,
   by decide, by decide⟩

/-! ### Request handler claims -/

/-- C1: for every authorized request the handler answers with a JSON object
whose top-level keys are exactly those of the enabled metrics (storage
enabled iff the configured mount list is non-empty), and no reader whose
flag is disabled is invoked. -/
theorem response_keys_exactly_enabled (config : Config) (env : OsEnv)
    (params : List (String × List String)) (resp : HttpResponse) (inv : List Reader)
    (hauth : authorized config params)
    (h : do_GET config env params = some (resp, inv)) :
    ∃ body, resp.body = RespBody.json body ∧
      (∀ k : String, k ∈ body.map Prod.fst ↔
        (k = "platform" ∧ config.platform = true) ∨
        (k = "uptime" ∧ config.uptime = true) ∨
        (k = "memory" ∧ config.memory = true) ∨
        (k = "load" ∧ config.load = true) ∨
        (k = "storage" ∧ config.storage ≠ [])) ∧
      ∀ r : Reader, readerFlag config r = false → r ∉ inv := by
  obtain ⟨-, -, body, hbody, hkeys, hinv, -⟩ :=
    do_GET_some_spec config env params resp inv hauth h
  refine ⟨body, hbody, ?_, ?_⟩
  · intro k
    rw [hkeys]
    exact mem_enabledKeys config k
  · intro r hr
    rw [hinv]
    exact not_mem_enabledReaders config env r hr

/-- C2: when a key is configured (not the sentinel "none") and the request
lacks the key parameter or provides a different value, the handler answers
401 text/plain with body "Unauthorized." and invokes no reader. -/
theorem unauthorized_rejected (config : Config) (env : OsEnv)
    (params : List (String × List String))
    (hkey : config.key ≠ "none")
    (hreq : provided_key params = none ∨
      ∃ v, provided_key params = some v ∧ v ≠ config.key) :
    do_GET config env params =
      some (⟨401, "text/plain", RespBody.text "Unauthorized."⟩, []) := by
  have hne : provided_key params ≠ some config.key := by
    rcases hreq with h | ⟨v, hv, hvne⟩
    · rw [h]; simp
    · rw [hv]
      intro hc
      exact hvne (Option.some.inj hc)
  unfold do_GET
  rw [if_pos ⟨hkey, hne⟩]

/-- C8: for every authorized request that completes, the top-level keys of
the response object appear in the fixed order platform, uptime, memory,
load, storage restricted to the enabled subset, and the enabled readers are
invoked in exactly that order. -/
theorem response_fixed_order (config : Config) (env : OsEnv)
    (params : List (String × List String)) (resp : HttpResponse) (inv : List Reader)
    (hauth : authorized config params)
    (h : do_GET config env params = some (resp, inv)) :
    ∃ body, resp.body = RespBody.json body ∧
      body.map Prod.fst = enabledKeys config ∧
      inv = enabledReaders config := by
  obtain ⟨-, -, body, hbody, hkeys, hinv, -⟩ :=
    do_GET_some_spec config env params resp inv hauth h
  exact ⟨body, hbody, hkeys, hinv⟩

/-- C10: when the mount list is non-empty but no listed path exists as a
directory, the response still contains the key "storage" with the empty
JSON object as value. -/
theorem storage_enabled_empty_object (config : Config) (env : OsEnv)
    (params : List (String × List String)) (resp : HttpResponse) (inv : List Reader)
    (hauth : authorized config params)
    (hne : config.storage ≠ [])
    (hnone : ∀ m ∈ config.storage, (env.path_exists m && env.path_isdir m) = false)
    (h : do_GET config env params = some (resp, inv)) :
    ∃ body, resp.body = RespBody.json body ∧ ("storage", JsonVal.obj []) ∈ body := by
  obtain ⟨-, -, body, hbody, -, -, hstor⟩ :=
    do_GET_some_spec config env params resp inv hauth h
  have hie : config.storage.isEmpty = false := by
    cases hcs : config.storage with
    | nil => exact absurd hcs hne
    | cons a l => rfl
  have hempty : get_storage env config.storage = [] := get_storage_go_skips env _ [] hnone
  have hmem := hstor hie
  rw [hempty] at hmem
  exact ⟨body, hbody, hmem⟩

/-- C7: on Linux the memory reader raises the IndexError (indexing the first
regex match) exactly when at least one of the labeled fields MemTotal,
MemAvailable is absent from the meminfo text, and a memory-reader exception
aborts the authorized request with no response (it propagates out of the
handler uncaught). -/
theorem memory_reader_error_spec (text : List Char) :
    (get_memory true text = Except.error MemError.indexError ↔
      ¬ containsLabelNum memTotalLabel text ∨ ¬ containsLabelNum memAvailLabel text) ∧
    (∀ (config : Config) (env : OsEnv) (params : List (String × List String))
      (e : MemError),
      authorized config params → config.memory = true → env.meminfoText = text →
      get_memory env.isLinux env.meminfoText = Except.error e →
      do_GET config env params = none) := by
  constructor
  · exact get_memory_text_indexError_iff text
  · intro config env params e hauth hmem _ herr
    rw [do_GET_not401 config env params hauth]
    have hnone : runMetrics (metricList config env) ([], []) = none := by
      apply runMetrics_none (metricList config env) ([], [])
        (config.memory, "memory", Reader.memory,
          (get_memory env.isLinux env.meminfoText).toOption.map memoryJson)
      · simp [metricList]
      · exact hmem
      · rw [herr]; rfl
    rw [hnone]
    rfl

/-! ### Concrete witness scenarios for the handler claims -/

/-- Witness configuration: no key, platform and uptime on, storage list
["/data"]. -/
def cfgW : Config := ⟨"none", true, true, false, false, ["/data"]⟩

/-- Witness environment: non-Linux host (total fallback readers), no path
exists. -/
def envW : OsEnv :=
  ⟨JsonVal.obj [("platform", JsonVal.str "x86_64"), ("system", JsonVal.str "Linux")],
   false, 5, [], [], JsonVal.obj [],
   fun _ => false, fun _ => false, fun _ => JsonVal.obj []⟩

/-- The response produced for cfgW and envW. -/
def respW : HttpResponse :=
  ⟨200, "application/json", RespBody.json
    [("platform",
      JsonVal.obj [("platform", JsonVal.str "x86_64"), ("system", JsonVal.str "Linux")]),
     ("uptime", JsonVal.obj [("uptime", JsonVal.num 0), ("upsince", JsonVal.num 5)]),
     ("storage", JsonVal.obj [])]⟩

/-- C1 witness: the theorem applied to the concrete scenario. -/
theorem response_keys_exactly_enabled_witness :
    authorized cfgW [] ∧
    do_GET cfgW envW [] = some (respW, [Reader.platform, Reader.uptime, Reader.storage]) ∧
    ∃ body, respW.body = RespBody.json body ∧
      (∀ k : String, k ∈ body.map Prod.fst ↔
        (k = "platform" ∧ cfgW.platform = true) ∨
        (k = "uptime" ∧ cfgW.uptime = true) ∨
        (k = "memory" ∧ cfgW.memory = true) ∨
        (k = "load" ∧ cfgW.load = true) ∨
        (k = "storage" ∧ cfgW.storage ≠ [])) ∧
      ∀ r : Reader, readerFlag cfgW r = false →
        r ∉ [Reader.platform, Reader.uptime, Reader.storage] :=
  ⟨Or.inl rfl, rfl,
   response_keys_exactly_enabled cfgW envW [] respW
     [Reader.platform, Reader.uptime, Reader.storage] (Or.inl rfl) rfl⟩

/-- C8 witness: the theorem applied to the concrete scenario. -/
theorem response_fixed_order_witness :
    authorized cfgW [] ∧
    do_GET cfgW envW [] = some (respW, [Reader.platform, Reader.uptime, Reader.storage]) ∧
    ∃ body, respW.body = RespBody.json body ∧
      body.map Prod.fst = enabledKeys cfgW ∧
      [Reader.platform, Reader.uptime, Reader.storage] = enabledReaders cfgW :=
  ⟨Or.inl rfl, rfl,
   response_fixed_order cfgW envW [] respW
     [Reader.platform, Reader.uptime, Reader.storage] (Or.inl rfl) rfl⟩

/-- C10 witness: storage configured with the nonexistent mount "/data"
still yields the storage key with an empty object. -/
theorem storage_enabled_empty_object_witness :
    authorized cfgW [] ∧ cfgW.storage ≠ [] ∧
    (∀ m ∈ cfgW.storage, (envW.path_exists m && envW.path_isdir m) = false) ∧
    do_GET cfgW envW [] = some (respW, [Reader.platform, Reader.uptime, Reader.storage]) ∧
    ∃ body, respW.body = RespBody.json body ∧ ("storage", JsonVal.obj []) ∈ body :=
  ⟨Or.inl rfl, by decide, by decide, rfl,
   storage_enabled_empty_object cfgW envW [] respW
     [Reader.platform, Reader.uptime, Reader.storage]
     (Or.inl rfl) (by decide) (by decide) rfl⟩

/-- Witness configuration with a shared key and all metrics enabled. -/
def cfg2 : Config := ⟨"secret", true, true, true, true, ["/"]⟩

/-- C2 witness: a request with no parameters against cfg2 is rejected. -/
theorem unauthorized_rejected_witness :
    cfg2.key ≠ "none" ∧ provided_key [] = none ∧
    do_GET cfg2 envW [] =
      some (⟨401, "text/plain", RespBody.text "Unauthorized."⟩, []) :=
  ⟨by decide, rfl,
   unauthorized_rejected cfg2 envW [] (by decide) (Or.inl rfl)⟩

/-- Witness configuration for C7: only the memory metric enabled. -/
def cfg7 : Config := ⟨"none", false, false, true, false, []⟩

/-- Witness environment for C7: Linux host with an empty meminfo text. -/
def env7 : OsEnv :=
  ⟨JsonVal.obj [], true, 0, [], [], JsonVal.obj [],
   fun _ => false, fun _ => false, fun _ => JsonVal.obj []⟩

/-- C7 witness: on the empty meminfo text the reader raises IndexError and
the authorized request produces no response. -/
theorem memory_reader_error_spec_witness :
    (authorized cfg7 [] ∧ cfg7.memory = true ∧ env7.meminfoText = ([] : List Char) ∧
      get_memory env7.isLinux env7.meminfoText = Except.error MemError.indexError ∧
      do_GET cfg7 env7 [] = none) ∧
    (get_memory true [] = Except.error MemError.indexError ↔
      ¬ containsLabelNum memTotalLabel [] ∨ ¬ containsLabelNum memAvailLabel []) :=
  ⟨⟨Or.inl rfl, rfl, rfl, rfl,
    (memory_reader_error_spec []).2 cfg7 env7 [] MemError.indexError
      (Or.inl rfl) rfl rfl rfl⟩,
   (memory_reader_error_spec []).1⟩

end ServerStatus
